import Mathlib

/-!
Verification development for the tiered caching subsystem and the array
extension helpers of the api.elrond.com repository.

The array helpers (`zip`, `remove`) are embedded from
`src/utils/extensions/array.extensions.ts`; the block-service call site is
embedded from `BlockService.computeProposerAndValidators`.  The caching
core (LocalCache, RemoteCache adapter, CoalescingLoader, CachingService)
is not present among the source files — only its callers and module
declarations are — so those components are modelled from the spec, as
marked on each definition.
-/

namespace ElrondApi

/-! ## Array extensions (array.extensions.ts) -/

/-- JavaScript array indexing `second[index]`: yields the element when the
index is in range and `undefined` (modelled as `none`) otherwise, as in
`Array.prototype.zip` where `second[index]` may run past `second`. -/
def jsGetElem {β : Type} (xs : List β) (i : Nat) : Option β :=
  xs.get? i

/-- `Array.prototype.zip` from array.extensions.ts:
`this.map((element, index) => predicate(element, second[index]))`.
The callback receives `second[index]` which is `undefined` (`none`) when
`index` is out of range of `second`. `map` does not mutate either array,
so the embedding is a pure function of both lists. -/
def jsZip {α β γ : Type} (xs : List α) (second : List β)
    (predicate : α → Option β → γ) : List γ :=
  xs.enum.map (fun p => predicate p.2 (jsGetElem second p.1))

/-- `Array.prototype.indexOf` (strict equality): index of the first
occurrence of `element`, or `-1` when absent. -/
def jsIndexOf {α : Type} [DecidableEq α] (xs : List α) (element : α) : Int :=
  match xs with
  | [] => -1
  | y :: ys =>
    if y = element then 0
    else
      let r := jsIndexOf ys element
      if r = -1 then -1 else r + 1

/-- `Array.prototype.remove` from array.extensions.ts:
`const index = this.indexOf(element); if (index >= 0) { this.splice(index, 1); }
return index;`.  The mutation of `this` by `splice(index, 1)` (deleting the
single element at `index`) is modelled by returning the updated array next
to the returned index. -/
def jsRemove {α : Type} [DecidableEq α] (xs : List α) (element : α) :
    Int × List α :=
  let index := jsIndexOf xs element
  if index ≥ 0 then
    (index, xs.take index.toNat ++ xs.drop (index.toNat + 1))
  else
    (index, xs)

theorem jsIndexOf_of_not_mem {α : Type} [DecidableEq α] {xs : List α} {x : α}
    (h : x ∉ xs) : jsIndexOf xs x = -1 := by
  induction xs with
  | nil => rfl
  | cons y ys ih =>
    have hy : y ≠ x := fun hyx => h (hyx ▸ List.mem_cons_self y ys)
    have hx : x ∉ ys := fun hmem => h (List.mem_cons_of_mem y hmem)
    simp [jsIndexOf, hy, ih hx]

theorem jsIndexOf_of_mem {α : Type} [DecidableEq α] {xs : List α} {x : α}
    (h : x ∈ xs) : jsIndexOf xs x = (List.indexOf x xs : Int) := by
  induction xs with
  | nil => cases h
  | cons y ys ih =>
    by_cases hy : y = x
    · subst hy
      simp [jsIndexOf]
    · have hx : x ∈ ys := by
        rcases List.mem_cons.mp h with h1 | h2
        · exact absurd h1.symm hy
        · exact h2
      have hnn : (0 : Int) ≤ (List.indexOf x ys : Int) := Int.ofNat_nonneg _
      have hne : (List.indexOf x ys : Int) ≠ -1 := by omega
      simp [jsIndexOf, hy, ih hx, hne, List.indexOf_cons_ne ys hy]

theorem take_append_drop_succ_indexOf {α : Type} [DecidableEq α]
    {xs : List α} {x : α} (h : x ∈ xs) :
    xs.take (List.indexOf x xs) ++ xs.drop (List.indexOf x xs + 1) =
      xs.erase x := by
  induction xs with
  | nil => cases h
  | cons y ys ih =>
    by_cases hy : y = x
    · subst hy
      simp [List.erase_cons_head]
    · have hx : x ∈ ys := by
        rcases List.mem_cons.mp h with h1 | h2
        · exact absurd h1.symm hy
        · exact h2
      have hbeq : (y == x) = false := beq_false_of_ne hy
      rw [List.indexOf_cons_ne ys hy]
      simp only [Nat.succ_eq_add_one, List.take_succ_cons, List.drop_succ_cons,
        List.cons_append, List.erase_cons, hbeq]
      rw [ih hx]
      simp

/-- Claim C9: `Array.prototype.zip` on arrays `xs` and `second` with
`second.length ≥ xs.length` returns an array of the same length as `xs`
whose i-th element is the callback applied to `xs[i]` and `second[i]`
(in range, so `second[index]` is the actual element, not `undefined`).
The embedding is a pure function of both lists, which also captures that
`map` leaves the receiver and the argument array unchanged. -/
theorem jsZip_spec {α β γ : Type} (xs : List α) (second : List β)
    (predicate : α → Option β → γ) (h : xs.length ≤ second.length) :
    (jsZip xs second predicate).length = xs.length ∧
    ∀ i : Fin xs.length,
      (jsZip xs second predicate).get? i.1 =
        some (predicate (xs.get i)
          (some (second.get ⟨i.1, lt_of_lt_of_le i.2 h⟩))) := by
  constructor
  · simp [jsZip]
  · intro i
    have hxa : xs.get? i.1 = some (xs.get i) := List.get?_eq_get i.2
    have hxb : second.get? i.1 =
        some (second.get ⟨i.1, lt_of_lt_of_le i.2 h⟩) :=
      List.get?_eq_get (lt_of_lt_of_le i.2 h)
    simp [jsZip, List.getElem?_map, List.getElem?_enum, hxa, jsGetElem, hxb,
      List.getElem?_eq_getElem (lt_of_lt_of_le i.2 h)]

theorem jsZip_spec_witness :
    (jsZip [1, 2] [10, 20, 30] (fun a ob => a + ob.getD 0)).length = 2 ∧
    (jsZip [1, 2] [10, 20, 30] (fun a ob => a + ob.getD 0)).get? 1 =
      some 22 := by
  have h := jsZip_spec [1, 2] [10, 20, 30] (fun a ob => a + ob.getD 0)
    (by decide)
  refine ⟨h.1, ?_⟩
  have h2 := h.2 ⟨1, by decide⟩
  simpa using h2

/-- Claim C10: `Array.prototype.remove` returns the index of the first
occurrence of the element (or `-1` when absent); the array afterwards equals
the original with exactly that first occurrence deleted (`List.erase`
removes precisely the first occurrence), and is unchanged when the element
does not occur. -/
theorem jsRemove_spec {α : Type} [DecidableEq α] (xs : List α) (x : α) :
    jsRemove xs x =
      if x ∈ xs then ((List.indexOf x xs : Int), xs.erase x)
      else (-1, xs) := by
  by_cases h : x ∈ xs
  · have hidx := jsIndexOf_of_mem h
    have hnn : (0 : Int) ≤ (List.indexOf x xs : Int) := Int.ofNat_nonneg _
    simp only [jsRemove, hidx, h, if_true]
    rw [if_pos hnn]
    simp only [Int.toNat_ofNat]
    rw [take_append_drop_succ_indexOf h]
  · have hidx := jsIndexOf_of_not_mem h
    simp [jsRemove, hidx, h]

/-! ## Tiered caching core, modelled from the spec

The repository files for `caching.service.ts` and `local.cache.service.ts`
(declared in `CachingModule` and used by `BlockService`, `TokenService` and
the test initializer) are not among the provided sources, so the caching
core below is modelled from the spec sections 3-7. Time is an explicit
`Nat` clock supplied to each operation. -/

/-- Modelled from the spec: a `CacheEntry` of the LocalCache tier —
`(value, insertedAt, ttl)`; the key is the map index. -/
structure LocalEntry (α : Type) where
  value : α
  insertedAt : Nat
  ttl : Nat

/-- Modelled from the spec: the process-local cache, a key/value store with
per-key TTL (spec 4.1). -/
structure LocalCache (α : Type) where
  entries : String → Option (LocalEntry α)

namespace LocalCache

/-- Modelled from the spec: `set(key, value, ttl)` inserts or overwrites and
starts (or restarts) the TTL clock at the current instant `now`. -/
def set {α : Type} (c : LocalCache α) (key : String) (value : α)
    (ttl : Nat) (now : Nat) : LocalCache α :=
  ⟨fun k => if k = key then some ⟨value, now, ttl⟩ else c.entries k⟩

/-- Modelled from the spec: `get(key)` returns absent (`none`) if the key is
missing or its TTL has elapsed; an entry set with TTL `t` is retrievable
while at most `t` time units have elapsed and absent after exceeding it. -/
def get {α : Type} (c : LocalCache α) (key : String) (now : Nat) :
    Option α :=
  match c.entries key with
  | none => none
  | some e => if now - e.insertedAt ≤ e.ttl then some e.value else none

/-- Modelled from the spec: `delete(key)`. -/
def del {α : Type} (c : LocalCache α) (key : String) : LocalCache α :=
  ⟨fun k => if k = key then none else c.entries k⟩

end LocalCache

/-- Claim C7: after `LocalCache.set key value ttl` at time `t0`, a `get` at
any time `t` with elapsed time `t - t0 ≤ ttl` returns the value, a `get`
with elapsed time `t - t0 > ttl` returns absent, and a `get` of a key that
was never set returns absent — expired entries are never returned. -/
theorem localCache_ttl_spec {α : Type} (c : LocalCache α) (key : String)
    (value : α) (ttl t0 t : Nat) :
    (t - t0 ≤ ttl →
      (LocalCache.set c key value ttl t0).get key t = some value) ∧
    (t - t0 > ttl →
      (LocalCache.set c key value ttl t0).get key t = none) ∧
    (∀ k, c.entries k = none → c.get k t = none) := by
  refine ⟨fun hle => ?_, fun hgt => ?_, fun k hk => ?_⟩
  · simp [LocalCache.set, LocalCache.get, hle]
  · simp [LocalCache.set, LocalCache.get, Nat.not_le.mpr hgt]
  · simp [LocalCache.get, hk]

theorem localCache_ttl_spec_witness :
    (LocalCache.set ⟨fun _ => (none : Option (LocalEntry Nat))⟩
        "k" 42 1 10).get "k" 11 = some 42 ∧
    (LocalCache.set ⟨fun _ => (none : Option (LocalEntry Nat))⟩
        "k" 42 1 10).get "k" 12 = none ∧
    (⟨fun _ => (none : Option (LocalEntry Nat))⟩ : LocalCache Nat).get
        "other" 11 = none := by
  have h := localCache_ttl_spec
    (⟨fun _ => (none : Option (LocalEntry Nat))⟩ : LocalCache Nat)
    "k" 42 1 10 11
  have h2 := localCache_ttl_spec
    (⟨fun _ => (none : Option (LocalEntry Nat))⟩ : LocalCache Nat)
    "k" 42 1 10 12
  exact ⟨h.1 (by decide), h2.2.1 (by decide), h.2.2 "other" rfl⟩

/-- Modelled from the spec: the remote-cache error taxonomy entry
`RemoteUnavailable` (ConnectionError), spec 4.2 and 7. -/
inductive RemoteError where
  | connectionError
deriving DecidableEq

/-- Modelled from the spec: the shared remote cache, a key/value store with
per-key TTL whose operations fail with a ConnectionError when the backend
is unreachable (`available = false`), spec 4.2. TTL-based expiry inside the
remote store is governed by the store itself and is not modelled; the TTL
is recorded so that writes with a given TTL are observable. -/
structure RemoteCache (α : Type) where
  entries : String → Option (α × Nat)
  available : Bool

namespace RemoteCache

/-- Modelled from the spec: remote `get(key) -> value | absent`, failing
with a ConnectionError when the backend is unreachable. -/
def get {α : Type} (c : RemoteCache α) (key : String) :
    Except RemoteError (Option α) :=
  if c.available then .ok ((c.entries key).map Prod.fst)
  else .error .connectionError

/-- Modelled from the spec: remote `set(key, value, ttl)`, failing with a
ConnectionError when the backend is unreachable. -/
def set {α : Type} (c : RemoteCache α) (key : String) (value : α)
    (ttl : Nat) : Except RemoteError (RemoteCache α) :=
  if c.available then
    .ok ⟨fun k => if k = key then some (value, ttl) else c.entries k,
      c.available⟩
  else .error .connectionError

/-- Modelled from the spec: a remote write as performed by the caching
façade — a set whose ConnectionError is caught and treated as a no-op
(spec 7: remote failures are logged, never propagated). -/
def trySet {α : Type} (c : RemoteCache α) (key : String) (value : α)
    (ttl : Nat) : RemoteCache α :=
  match c.set key value ttl with
  | .ok c2 => c2
  | .error _ => c

end RemoteCache

/-- Modelled from the spec: the two cache tiers composed by the
CachingService façade. -/
structure CacheState (α : Type) where
  localCache : LocalCache α
  remoteCache : RemoteCache α

/-- Modelled from the spec: what one `getOrSetCache` call produces — the
value or the propagated computation failure, the resulting tier states, and
whether the compute function was invoked and whether the remote tier was
accessed. -/
structure GetOrSetOutcome (α : Type) where
  result : Except String α
  state : CacheState α
  computeInvoked : Bool
  remoteAccessed : Bool

/-- Modelled from the spec: `getOrSetCache(key, computeFn, remoteTtl,
localTtl)` (spec 4.4): check LocalCache first and return immediately on a
hit with no remote round-trip; else check RemoteCache and on a hit populate
LocalCache with `localTtl` and return; else invoke the compute function
(the coalescing of concurrent invocations is modelled separately by
`LoaderState`), and on success populate RemoteCache with `remoteTtl` and
LocalCache with `localTtl`. A remote read failure is treated as a miss and
a remote write failure as a no-op (spec 7); a compute failure is propagated
and nothing is written to either tier. The compute function is modelled by
its outcome `computeFn : Except String α`. -/
def getOrSetCache {α : Type} (s : CacheState α) (key : String)
    (computeFn : Except String α) (remoteTtl localTtl now : Nat) :
    GetOrSetOutcome α :=
  match s.localCache.get key now with
  | some v => ⟨.ok v, s, false, false⟩
  | none =>
    match s.remoteCache.get key with
    | .ok (some v) =>
      ⟨.ok v, ⟨s.localCache.set key v localTtl now, s.remoteCache⟩,
        false, true⟩
    | _ =>
      match computeFn with
      | .error e => ⟨.error e, s, true, true⟩
      | .ok v =>
        ⟨.ok v, ⟨s.localCache.set key v localTtl now,
          s.remoteCache.trySet key v remoteTtl⟩, true, true⟩

/-- Modelled from the spec: `setCache(key, value, ttl)` writes through to
both tiers unconditionally (spec 4.4); the remote write degrades to a no-op
on ConnectionError (spec 7). -/
def setCache {α : Type} (s : CacheState α) (key : String) (value : α)
    (ttl now : Nat) : CacheState α :=
  ⟨s.localCache.set key value ttl now, s.remoteCache.trySet key value ttl⟩

/-- Modelled from the spec: `getCacheLocal` / `setCacheLocal`, the
LocalCache-only accesses of the façade (spec 4.4). -/
def setCacheLocal {α : Type} (s : CacheState α) (key : String) (value : α)
    (ttl now : Nat) : CacheState α :=
  ⟨s.localCache.set key value ttl now, s.remoteCache⟩

/-- Claim C2: `getOrSetCache` consults LocalCache first and on a local hit
returns that value with no remote access and no compute invocation; on a
local miss but remote hit it returns the remote value, does not invoke the
compute function, and writes the value into LocalCache with `localTtl`;
only when both tiers miss does it invoke the compute function, and on
success it writes the result to RemoteCache with `remoteTtl` and to
LocalCache with `localTtl` before returning it. -/
theorem getOrSetCache_tier_spec {α : Type} (s : CacheState α) (key : String)
    (computeFn : Except String α) (remoteTtl localTtl now : Nat) :
    (∀ v, s.localCache.get key now = some v →
      getOrSetCache s key computeFn remoteTtl localTtl now =
        ⟨.ok v, s, false, false⟩) ∧
    (∀ v, s.localCache.get key now = none →
      s.remoteCache.get key = .ok (some v) →
      (getOrSetCache s key computeFn remoteTtl localTtl now).result =
          .ok v ∧
        (getOrSetCache s key computeFn remoteTtl localTtl
            now).computeInvoked = false ∧
        (getOrSetCache s key computeFn remoteTtl localTtl
            now).state.remoteCache = s.remoteCache ∧
        (getOrSetCache s key computeFn remoteTtl localTtl
            now).state.localCache.entries key =
          some ⟨v, now, localTtl⟩) ∧
    (∀ v, s.localCache.get key now = none →
      s.remoteCache.get key = .ok none →
      computeFn = .ok v →
      (getOrSetCache s key computeFn remoteTtl localTtl now).result =
          .ok v ∧
        (getOrSetCache s key computeFn remoteTtl localTtl
            now).computeInvoked = true ∧
        (getOrSetCache s key computeFn remoteTtl localTtl
            now).state.localCache.entries key = some ⟨v, now, localTtl⟩ ∧
        (getOrSetCache s key computeFn remoteTtl localTtl
            now).state.remoteCache.entries key = some (v, remoteTtl)) := by
  refine ⟨fun v hloc => ?_, fun v hloc hrem => ?_, fun v hloc hrem hcomp => ?_⟩
  · simp [getOrSetCache, hloc]
  · simp [getOrSetCache, hloc, hrem, LocalCache.set]
  · have havail : s.remoteCache.available = true := by
      by_contra hfalse
      simp [RemoteCache.get, hfalse] at hrem
    subst hcomp
    simp [getOrSetCache, hloc, hrem, LocalCache.set, RemoteCache.trySet,
      RemoteCache.set, havail]

theorem getOrSetCache_tier_spec_witness :
    (getOrSetCache
        (⟨⟨fun k => if k = "k" then some ⟨3, 0, 10⟩ else none⟩,
          ⟨fun _ => none, true⟩⟩ : CacheState Nat)
        "k" (.ok 99) 60 60 5).result = .ok 3 ∧
    (getOrSetCache
        (⟨⟨fun _ => none⟩, ⟨fun k => if k = "k" then some (7, 30) else none,
          true⟩⟩ : CacheState Nat)
        "k" (.ok 99) 60 60 5).computeInvoked = false ∧
    (getOrSetCache
        (⟨⟨fun _ => none⟩, ⟨fun _ => none, true⟩⟩ : CacheState Nat)
        "k" (.ok 99) 60 45 5).state.remoteCache.entries "k" =
      some (99, 60) := by
  refine ⟨?_, ?_, ?_⟩
  · have h := (getOrSetCache_tier_spec
      (⟨⟨fun k => if k = "k" then some ⟨3, 0, 10⟩ else none⟩,
        ⟨fun _ => none, true⟩⟩ : CacheState Nat)
      "k" (.ok 99) 60 60 5).1 3 (by simp [LocalCache.get])
    rw [h]
  · exact ((getOrSetCache_tier_spec
      (⟨⟨fun _ => none⟩, ⟨fun k => if k = "k" then some (7, 30) else none,
        true⟩⟩ : CacheState Nat)
      "k" (.ok 99) 60 60 5).2.1 7 (by simp [LocalCache.get])
      (by simp [RemoteCache.get])).2.1
  · exact ((getOrSetCache_tier_spec
      (⟨⟨fun _ => none⟩, ⟨fun _ => none, true⟩⟩ : CacheState Nat)
      "k" (.ok 99) 60 45 5).2.2 99 (by simp [LocalCache.get])
      (by simp [RemoteCache.get]) rfl).2.2.2

/-- Claim C4: when every RemoteCache operation fails with a connection
error (backend unavailable), `getOrSetCache` still returns the LocalCache
value when present and otherwise the outcome of the compute function; the
remote-cache error is never surfaced (the result is exactly the local hit
or the compute outcome, and errors of type `RemoteError` cannot appear in
it), and the failed remote write is a no-op (the remote tier is
unchanged). -/
theorem getOrSetCache_remote_degradation {α : Type} (s : CacheState α)
    (key : String) (computeFn : Except String α)
    (remoteTtl localTtl now : Nat)
    (h : s.remoteCache.available = false) :
    ((getOrSetCache s key computeFn remoteTtl localTtl now).result =
      match s.localCache.get key now with
      | some v => .ok v
      | none => computeFn) ∧
    (getOrSetCache s key computeFn remoteTtl localTtl
        now).state.remoteCache = s.remoteCache := by
  have hrem : s.remoteCache.get key = .error .connectionError := by
    simp [RemoteCache.get, h]
  cases hloc : s.localCache.get key now with
  | some v => simp [getOrSetCache, hloc]
  | none =>
    cases hcomp : computeFn with
    | error e => simp [getOrSetCache, hloc, hrem, hcomp]
    | ok v =>
      simp [getOrSetCache, hloc, hrem, hcomp, RemoteCache.trySet,
        RemoteCache.set, h]

theorem getOrSetCache_remote_degradation_witness :
    (getOrSetCache
        (⟨⟨fun _ => none⟩, ⟨fun _ => none, false⟩⟩ : CacheState Nat)
        "k" (.ok 11) 60 60 5).result = .ok 11 ∧
    (getOrSetCache
        (⟨⟨fun _ => none⟩, ⟨fun _ => none, false⟩⟩ : CacheState Nat)
        "k" (.ok 11) 60 60 5).state.remoteCache.available = false := by
  have h := getOrSetCache_remote_degradation
    (⟨⟨fun _ => none⟩, ⟨fun _ => none, false⟩⟩ : CacheState Nat)
    "k" (.ok 11) 60 60 5 rfl
  refine ⟨?_, ?_⟩
  · rw [h.1]
    rfl
  · rw [h.2]

/-- Claim C6: `setCache` writes through to both LocalCache and RemoteCache,
and a subsequent `getOrSetCache` within the TTL returns the cached value
without invoking the compute function — for every compute function,
including one that would fail. -/
theorem setCache_short_circuit {α : Type} (s : CacheState α) (key : String)
    (value : α) (ttl now t : Nat) (computeFn : Except String α)
    (h : t - now ≤ ttl) :
    (setCache s key value ttl now).localCache.entries key =
      some ⟨value, now, ttl⟩ ∧
    (s.remoteCache.available = true →
      (setCache s key value ttl now).remoteCache.entries key =
        some (value, ttl)) ∧
    (getOrSetCache (setCache s key value ttl now) key computeFn ttl ttl
        t).result = .ok value ∧
    (getOrSetCache (setCache s key value ttl now) key computeFn ttl ttl
        t).computeInvoked = false := by
  have hloc : (setCache s key value ttl now).localCache.get key t =
      some value := by
    simp [setCache, LocalCache.set, LocalCache.get, h]
  refine ⟨?_, fun havail => ?_, ?_, ?_⟩
  · simp [setCache, LocalCache.set]
  · simp [setCache, RemoteCache.trySet, RemoteCache.set, havail]
  · simp [getOrSetCache, hloc]
  · simp [getOrSetCache, hloc]

theorem setCache_short_circuit_witness :
    (getOrSetCache
        (setCache (⟨⟨fun _ => none⟩, ⟨fun _ => none, true⟩⟩ : CacheState Nat)
          "x" 42 60 0)
        "x" (.error "boom") 60 60 30).result = .ok 42 ∧
    (getOrSetCache
        (setCache (⟨⟨fun _ => none⟩, ⟨fun _ => none, true⟩⟩ : CacheState Nat)
          "x" 42 60 0)
        "x" (.error "boom") 60 60 30).computeInvoked = false := by
  have h := setCache_short_circuit
    (⟨⟨fun _ => none⟩, ⟨fun _ => none, true⟩⟩ : CacheState Nat)
    "x" 42 60 0 30 (.error "boom") (by decide)
  exact ⟨h.2.2.1, h.2.2.2⟩

/-! ## CoalescingLoader, modelled from the spec

Concurrency is modelled by interleaved event traces over the loader state:
an `arrive` event is a caller entering `getOrCompute` for a key (starting a
computation when none is in flight, otherwise attaching as a waiter), and a
`settle` event is the single in-flight computation for a key settling with
an outcome, releasing every attached caller (spec 4.3). -/

/-- Modelled from the spec: the CoalescingLoader state — per key whether an
`InFlightComputation` exists, how many times the compute function has been
invoked, which callers are attached to the in-flight computation, and the
outcome each caller has received so far. -/
structure LoaderState (α : Type) where
  inFlight : String → Bool
  invocations : String → Nat
  attached : String → List Nat
  results : Nat → Option (Except String α)

/-- Modelled from the spec: the observable events of `getOrCompute` — a
caller arriving for a key, and the in-flight computation for a key
settling with an outcome. -/
inductive LoaderEvent (α : Type) where
  | arrive (key : String) (caller : Nat)
  | settle (key : String) (outcome : Except String α)

/-- Modelled from the spec: one step of the loader. An arriving caller
attaches as a waiter when a computation for the key is already in flight,
and otherwise starts one (one compute invocation) and registers the
in-flight record with itself attached; settlement releases every attached
caller with the same outcome and destroys the in-flight record. -/
def LoaderState.step {α : Type} (s : LoaderState α) :
    LoaderEvent α → LoaderState α
  | .arrive key caller =>
    if s.inFlight key then
      { s with
        attached := fun k =>
          if k = key then caller :: s.attached k else s.attached k }
    else
      { s with
        inFlight := fun k => if k = key then true else s.inFlight k
        invocations := fun k =>
          if k = key then s.invocations k + 1 else s.invocations k
        attached := fun k => if k = key then [caller] else s.attached k }
  | .settle key outcome =>
    { s with
      inFlight := fun k => if k = key then false else s.inFlight k
      attached := fun k => if k = key then [] else s.attached k
      results := fun c =>
        if c ∈ s.attached key then some outcome else s.results c }

/-- Modelled from the spec: running an interleaving of loader events. -/
def runTrace {α : Type} (s : LoaderState α) (events : List (LoaderEvent α)) :
    LoaderState α :=
  events.foldl LoaderState.step s

theorem runTrace_arrivals {α : Type} (key : String) (cs : List Nat) :
    ∀ s : LoaderState α, s.inFlight key = true →
      (runTrace s (cs.map (.arrive key))).inFlight key = true ∧
      (runTrace s (cs.map (.arrive key))).invocations key =
        s.invocations key ∧
      (∀ c, c ∈ s.attached key →
        c ∈ (runTrace s (cs.map (.arrive key))).attached key) ∧
      (∀ c, c ∈ cs →
        c ∈ (runTrace s (cs.map (.arrive key))).attached key) := by
  induction cs with
  | nil =>
    intro s h
    exact ⟨h, rfl, fun c hc => hc, fun c hc => absurd hc (List.not_mem_nil c)⟩
  | cons c0 rest ih =>
    intro s h
    have hstep : LoaderState.step s (.arrive key c0) =
        { s with
          attached := fun k =>
            if k = key then c0 :: s.attached k else s.attached k } := by
      simp [LoaderState.step, h]
    have hrun : runTrace s ((c0 :: rest).map (.arrive key)) =
        runTrace (LoaderState.step s (.arrive key c0))
          (rest.map (.arrive key)) := rfl
    rw [hrun, hstep]
    have hinf :
        ({ s with
          attached := fun k =>
            if k = key then c0 :: s.attached k else s.attached k } :
          LoaderState α).inFlight key = true := h
    obtain ⟨h1, h2, h3, h4⟩ := ih _ hinf
    refine ⟨h1, h2, fun c hc => ?_, fun c hc => ?_⟩
    · apply h3
      simp
      right
      exact hc
    · rcases List.mem_cons.mp hc with hc0 | hcr
      · subst hc0
        apply h3
        simp
      · exact h4 c hcr

/-- Claim C1: for any key, at most one in-flight computation exists: when N
callers (N ≥ 1) arrive for the same uncached key, in any order and at any
points before the computation settles, the compute function is invoked
exactly once, and on settlement every one of those callers receives the
result of that single invocation. -/
theorem coalescing_single_flight {α : Type} (s0 : LoaderState α)
    (key : String) (callers : List Nat) (v : α)
    (h0 : s0.inFlight key = false) (h1 : s0.invocations key = 0)
    (hne : callers ≠ []) :
    (runTrace s0 (callers.map (.arrive key) ++
        [.settle key (.ok v)])).invocations key = 1 ∧
    ∀ c, c ∈ callers →
      (runTrace s0 (callers.map (.arrive key) ++
        [.settle key (.ok v)])).results c = some (.ok v) := by
  obtain ⟨c0, rest, rfl⟩ : ∃ c0 rest, callers = c0 :: rest := by
    cases callers with
    | nil => exact absurd rfl hne
    | cons c0 rest => exact ⟨c0, rest, rfl⟩
  have hsplit : runTrace s0 ((c0 :: rest).map (.arrive key) ++
      [.settle key (.ok v)]) =
      LoaderState.step (runTrace s0 ((c0 :: rest).map (.arrive key)))
        (.settle key (.ok v)) := by
    simp [runTrace, List.foldl_append]
  have hstart : LoaderState.step s0 (.arrive key c0) =
      { s0 with
        inFlight := fun k => if k = key then true else s0.inFlight k
        invocations := fun k =>
          if k = key then s0.invocations k + 1 else s0.invocations k
        attached := fun k => if k = key then [c0] else s0.attached k } := by
    simp [LoaderState.step, h0]
  have hrun : runTrace s0 ((c0 :: rest).map (.arrive key)) =
      runTrace (LoaderState.step s0 (.arrive key c0))
        (rest.map (.arrive key)) := rfl
  set s1 : LoaderState α :=
    { s0 with
      inFlight := fun k => if k = key then true else s0.inFlight k
      invocations := fun k =>
        if k = key then s0.invocations k + 1 else s0.invocations k
      attached := fun k => if k = key then [c0] else s0.attached k }
    with hs1
  have hinf1 : s1.inFlight key = true := by simp [hs1]
  obtain ⟨hINF, hINV, hATT, hALL⟩ := runTrace_arrivals key rest s1 hinf1
  have hinv1 : s1.invocations key = 1 := by simp [hs1, h1]
  rw [hsplit, hrun, hstart]
  constructor
  · simp only [LoaderState.step]
    rw [hINV, hinv1]
  · intro c hc
    have hmem : c ∈ (runTrace s1 (rest.map (.arrive key))).attached key := by
      rcases List.mem_cons.mp hc with hc0 | hcr
      · subst hc0
        apply hATT
        simp [hs1]
      · exact hALL c hcr
    simp only [LoaderState.step]
    rw [if_pos hmem]

theorem coalescing_single_flight_witness :
    (runTrace
        (⟨fun _ => false, fun _ => 0, fun _ => [], fun _ => none⟩ :
          LoaderState Nat)
        ([1, 2, 3].map (.arrive "k") ++
          [.settle "k" (.ok 42)])).invocations "k" = 1 ∧
    (runTrace
        (⟨fun _ => false, fun _ => 0, fun _ => [], fun _ => none⟩ :
          LoaderState Nat)
        ([1, 2, 3].map (.arrive "k") ++
          [.settle "k" (.ok 42)])).results 2 = some (.ok 42) := by
  have h := coalescing_single_flight
    (⟨fun _ => false, fun _ => 0, fun _ => [], fun _ => none⟩ :
      LoaderState Nat)
    "k" [1, 2, 3] 42 rfl rfl (by decide)
  exact ⟨h.1, h.2 2 (by decide)⟩

/-- Claim C3: when the compute function for a key fails, `getOrSetCache`
propagates that failure and leaves both cache tiers unchanged, and the
settlement-with-failure in the loader delivers the same failure to every caller
attached to the in-flight computation, destroys the in-flight record (the
key reverts to MISS), and a next arrival for the key starts a fresh
computation (one more compute invocation). -/
theorem compute_failure_spec {α : Type} (s : CacheState α) (key : String)
    (e : String) (remoteTtl localTtl now : Nat)
    (hloc : s.localCache.get key now = none)
    (hrem : ∀ v, s.remoteCache.get key ≠ .ok (some v))
    (ls : LoaderState α) (c2 : Nat) :
    (getOrSetCache s key (.error e) remoteTtl localTtl now).result =
        .error e ∧
    (getOrSetCache s key (.error e) remoteTtl localTtl now).state = s ∧
    (∀ c, c ∈ ls.attached key →
      (ls.step (.settle key (.error e))).results c = some (.error e)) ∧
    (ls.step (.settle key (.error e))).inFlight key = false ∧
    ((ls.step (.settle key (.error e))).step
        (.arrive key c2)).invocations key =
      ls.invocations key + 1 := by
  have hfail : getOrSetCache s key (.error e) remoteTtl localTtl now =
      ⟨.error e, s, true, true⟩ := by
    cases hget : s.remoteCache.get key with
    | ok ov =>
      cases ov with
      | some v => exact absurd hget (hrem v)
      | none => simp [getOrSetCache, hloc, hget]
    | error err => simp [getOrSetCache, hloc, hget]
  have hsettle : (ls.step (.settle key (.error e))).inFlight key = false := by
    simp [LoaderState.step]
  refine ⟨by rw [hfail], by rw [hfail], fun c hc => ?_, hsettle, ?_⟩
  · simp [LoaderState.step, hc]
  · simp [LoaderState.step]

theorem compute_failure_spec_witness :
    (getOrSetCache
        (⟨⟨fun _ => none⟩, ⟨fun _ => none, true⟩⟩ : CacheState Nat)
        "k" (.error "boom") 60 60 5).result = .error "boom" ∧
    (getOrSetCache
        (⟨⟨fun _ => none⟩, ⟨fun _ => none, true⟩⟩ : CacheState Nat)
        "k" (.error "boom") 60 60 5).state.localCache.entries "k" = none ∧
    ((⟨fun _ => true, fun _ => 1, fun _ => [7, 8], fun _ => none⟩ :
        LoaderState Nat).step
      (.settle "k" (.error "boom"))).results 7 = some (.error "boom") ∧
    (((⟨fun _ => true, fun _ => 1, fun _ => [7, 8], fun _ => none⟩ :
        LoaderState Nat).step
      (.settle "k" (.error "boom"))).step
        (.arrive "k" 9)).invocations "k" = 2 := by
  have h := compute_failure_spec
    (⟨⟨fun _ => none⟩, ⟨fun _ => none, true⟩⟩ : CacheState Nat)
    "k" "boom" 60 60 5 (by simp [LocalCache.get])
    (by intro v; simp [RemoteCache.get])
    (⟨fun _ => true, fun _ => 1, fun _ => [7, 8], fun _ => none⟩ :
      LoaderState Nat) 9
  refine ⟨h.1, ?_, h.2.2.1 7 (by decide), h.2.2.2.2⟩
  rw [h.2.1]

/-! ## batchProcess, modelled from the spec -/

/-- Modelled from the spec: the value one batch item resolves to — the
local tier when present, else the remote tier, else the computed value —
the same per-key get-or-set logic as `getOrSetCache` applied to one item
(spec 4.4). -/
def resolveItem {α ι : Type} (s : CacheState α) (keyFn : ι → String)
    (computeFn : ι → α) (now : Nat) (item : ι) : α :=
  match s.localCache.get (keyFn item) now with
  | some v => v
  | none =>
    match s.remoteCache.get (keyFn item) with
    | .ok (some v) => v
    | _ => computeFn item

/-- A completed per-item computation storing its result at the original
position of the item. -/
def writeResult {α : Type} (acc : Nat → Option α) (i : Nat) (v : α) :
    Nat → Option α :=
  fun j => if j = i then some v else acc j

/-- Modelled from the spec: `batchProcess(items, keyFn, computeFn, ttl,
localTtl)`. The per-item resolutions are dispatched concurrently; `sched`
is their completion order, a permutation of the item positions. Each
completion stores its result at the original position of the item and the
output is collected in the original input order. Tier population on the
way out is not modelled: the claim concerns the returned list, and each
position resolves against the same starting tiers. -/
def batchProcess {α ι : Type} [Inhabited ι] [Inhabited α] (s : CacheState α)
    (items : List ι) (keyFn : ι → String) (computeFn : ι → α)
    (ttl localTtl now : Nat) (sched : List Nat) : List α :=
  let value : Nat → α :=
    fun i => resolveItem s keyFn computeFn now (items.getD i default)
  let results : Nat → Option α :=
    sched.foldl (fun acc i => writeResult acc i (value i)) (fun _ => none)
  (List.range items.length).map (fun i => (results i).getD default)

theorem foldl_writeResult {α : Type} (value : Nat → α) :
    ∀ (sched : List Nat) (acc : Nat → Option α) (j : Nat),
      (sched.foldl (fun acc i => writeResult acc i (value i)) acc) j =
        if j ∈ sched then some (value j) else acc j := by
  intro sched
  induction sched with
  | nil => intro acc j; simp
  | cons i rest ih =>
    intro acc j
    by_cases hjr : j ∈ rest
    · simp [List.foldl_cons, ih, hjr]
    · by_cases hji : j = i
      · subst hji
        simp [List.foldl_cons, ih, hjr, writeResult]
      · simp [List.foldl_cons, ih, hjr, writeResult, hji]

theorem range_map_getD {ι γ : Type} [Inhabited ι] (g : ι → γ) :
    ∀ items : List ι,
      (List.range items.length).map (fun i => g (items.getD i default)) =
        items.map g := by
  intro items
  induction items with
  | nil => simp
  | cons x t ih =>
    rw [List.length_cons, List.range_succ_eq_map, List.map_cons,
      List.map_map]
    have hcomp : ((fun i => g ((x :: t).getD i default)) ∘ Nat.succ) =
        fun i => g (t.getD i default) := by
      funext i
      simp [List.getD_cons_succ]
    rw [List.getD_cons_zero, hcomp, ih, List.map_cons]

/-- Claim C5: `batchProcess` returns a list whose length equals the length
of `items` and whose i-th element is the value resolved (from a cache tier
or by computation) for `items[i]`, in the original input order, for every
completion order `sched` of the concurrently dispatched per-item
resolutions. -/
theorem batchProcess_order_preservation {α ι : Type} [Inhabited ι]
    [Inhabited α] (s : CacheState α) (items : List ι) (keyFn : ι → String)
    (computeFn : ι → α) (ttl localTtl now : Nat) (sched : List Nat)
    (hperm : List.Perm sched (List.range items.length)) :
    batchProcess s items keyFn computeFn ttl localTtl now sched =
      items.map (resolveItem s keyFn computeFn now) ∧
    (batchProcess s items keyFn computeFn ttl localTtl now
        sched).length = items.length := by
  have hmain : batchProcess s items keyFn computeFn ttl localTtl now sched =
      items.map (resolveItem s keyFn computeFn now) := by
    unfold batchProcess
    have hstep : ∀ i ∈ List.range items.length,
        ((sched.foldl
            (fun acc i => writeResult acc i
              (resolveItem s keyFn computeFn now (items.getD i default)))
            (fun _ => none)) i).getD default =
          resolveItem s keyFn computeFn now (items.getD i default) := by
      intro i hi
      rw [foldl_writeResult]
      rw [if_pos (hperm.mem_iff.mpr hi)]
      rfl
    rw [List.map_congr_left hstep]
    exact range_map_getD (resolveItem s keyFn computeFn now) items
  exact ⟨hmain, by rw [hmain, List.length_map]⟩

theorem batchProcess_order_preservation_witness :
    batchProcess
        (⟨⟨fun _ => none⟩, ⟨fun _ => none, true⟩⟩ : CacheState Nat)
        [1, 2, 3] (fun n => "item" ++ toString n) (fun n => n * 2)
        60 60 5 [2, 0, 1] = [2, 4, 6] := by
  have h := batchProcess_order_preservation
    (⟨⟨fun _ => none⟩, ⟨fun _ => none, true⟩⟩ : CacheState Nat)
    [1, 2, 3] (fun n => "item" ++ toString n) (fun n => n * 2)
    60 60 5 [2, 0, 1] (by decide)
  rw [h.1]
  rfl

/-! ## BlockService.computeProposerAndValidators (block.service.ts) -/

/-- A JavaScript value as cached by `getCacheLocal` at this call site:
enough of the dynamic value space to express truthiness, including every
falsy shape (`undefined`, `null`, `false`, `0`, `""`) as well as truthy
arrays such as the public-key table. -/
inductive Js where
  | undefined
  | null
  | boolean (b : Bool)
  | number (n : Int)
  | str (s : String)
  | array (elems : List Js)

/-- JavaScript truthiness, as tested by `if (!blses)`. -/
def Js.truthy : Js → Bool
  | .undefined => false
  | .null => false
  | .boolean b => b
  | .number n => decide (n ≠ 0)
  | .str s => decide (s ≠ "")
  | .array _ => true

namespace Constants

/-- Modelled from the spec: `Constants.oneWeek()` (constants.ts is not
among the sources) — one week in seconds, the local TTL used for the
shard/epoch public-key table. -/
def oneWeek : Nat := 604800

end Constants

/-- Modelled from the spec: `getCacheLocal(key) -> value | absent`
(spec 4.4) as seen by a JavaScript caller — an absent key surfaces as
`undefined`, so the caller cannot distinguish absent from a cached
`undefined`, and tests truthiness instead. -/
def getCacheLocalJs (store : String → Option Js) (key : String) : Js :=
  (store key).getD .undefined

/-- The observable effects of the cache interaction in
`BlockService.computeProposerAndValidators` for one block item: the
public-key table used, whether `blsService.getPublicKeys` was invoked, and
the `setCacheLocal` call performed, if any. -/
structure ProposerCacheEffects where
  blses : Js
  recomputed : Bool
  setLocalCall : Option (String × Js × Nat)

/-- The cache interaction of `BlockService.computeProposerAndValidators`
(block.service.ts): `key = shard + "_" + epoch`;
`let blses = await this.cachingService.getCacheLocal(key); if (!blses) {
blses = await this.blsService.getPublicKeys(shard, epoch);
await this.cachingService.setCacheLocal(key, blses, Constants.oneWeek()); }`.
`store` is the local-cache content behind `getCacheLocal` and `fresh` the
table `getPublicKeys` would return. -/
def computeProposerAndValidatorsCache (store : String → Option Js)
    (shard epoch : Nat) (fresh : Js) : ProposerCacheEffects :=
  let key := toString shard ++ "_" ++ toString epoch
  let blses := getCacheLocalJs store key
  if blses.truthy then ⟨blses, false, none⟩
  else ⟨fresh, true, some (key, fresh, Constants.oneWeek)⟩

/-- Claim C8: whenever `getCacheLocal` for the `shard_epoch` key yields any
falsy value — a genuinely cached falsy value just as much as an absent
entry, which both surface through the interface indistinguishably — the
public-key table is recomputed via `blsService.getPublicKeys` and re-stored
via `setCacheLocal` with a one-week TTL; a cached falsy value never
short-circuits recomputation at this call site. -/
theorem computeProposerAndValidators_falsy_recomputes
    (store : String → Option Js) (shard epoch : Nat) (fresh : Js)
    (hfalsy : (getCacheLocalJs store
      (toString shard ++ "_" ++ toString epoch)).truthy = false) :
    computeProposerAndValidatorsCache store shard epoch fresh =
      ⟨fresh, true,
        some (toString shard ++ "_" ++ toString epoch, fresh,
          Constants.oneWeek)⟩ := by
  simp [computeProposerAndValidatorsCache, hfalsy]

theorem computeProposerAndValidators_falsy_recomputes_witness :
    computeProposerAndValidatorsCache
        (fun k => if k = "1_5" then some (Js.boolean false) else none)
        1 5 (Js.array [Js.str "pubkey0"]) =
      ⟨Js.array [Js.str "pubkey0"], true,
        some ("1_5", Js.array [Js.str "pubkey0"], Constants.oneWeek)⟩ := by
  exact computeProposerAndValidators_falsy_recomputes
    (fun k => if k = "1_5" then some (Js.boolean false) else none)
    1 5 (Js.array [Js.str "pubkey0"]) (by decide)

end ElrondApi
